import Mathlib

/-!
Verification of the webswitch service-mesh client
(src/adapters/service-mesh/node.js, class ServiceMeshClient).

Part 1 models the Wire Codec (encode / decode, lines 193-220 of node.js).
The payloads are JSON-representable JavaScript values, modelled by the
inductive type JsVal.  JavaScript numbers are restricted to integers
printed in decimal (the float cases are not shallowly embeddable) and
JavaScript strings to Unicode scalar sequences (no lone surrogates).
JSON.stringify and JSON.parse are platform builtins: they are modelled
here by jsonStringify and jsonParse, an executable serializer and a
recursive-descent parser matching the JSON grammar on this fragment.
Buffer.from(string) / Buffer.toString() are the mutually inverse UTF-8
conversions, so a Buffer is modelled by the String it carries.
-/

/-- A JSON-representable JavaScript runtime value. -/
inductive JsVal where
  | null
  | bool (b : Bool)
  | num (n : Int)
  | str (s : String)
  | arr (elems : List JsVal)
  | obj (fields : List (String × JsVal))

/-- The JavaScript typeof operator on this fragment.  Note typeof null
and typeof of an array are both the string object. -/
def jsTypeof : JsVal → String
  | .null => "object"
  | .bool _ => "boolean"
  | .num _ => "number"
  | .str _ => "string"
  | .arr _ => "object"
  | .obj _ => "object"

/-- JavaScript truthiness on this fragment (used by the guard
if (!event.eventName) in the message handler). -/
def jsTruthy : JsVal → Bool
  | .null => false
  | .bool b => b
  | .num n => n != 0
  | .str s => s != ""
  | .arr _ => true
  | .obj _ => true

/-- First binding of a key in an object (JavaScript property lookup;
objects produced by JSON.parse carry each key at most once). -/
def objGet (key : String) : List (String × JsVal) → Option JsVal
  | [] => none
  | (k, v) :: t => if k = key then some v else objGet key t

/-! ### Serialization: the model of JSON.stringify -/

/-- The decimal digit character for a value below ten. -/
def digCh (k : Nat) : Char := Char.ofNat (48 + k)

/-- The lowercase hexadecimal digit character for a value below sixteen. -/
def hexCh (k : Nat) : Char :=
  if k < 10 then Char.ofNat (48 + k) else Char.ofNat (87 + k)

/-- Decimal digit characters of a natural number, most significant first. -/
def natDec (n : Nat) : List Char :=
  if n < 10 then [digCh n] else natDec (n / 10) ++ [digCh (n % 10)]
termination_by n
decreasing_by omega

/-- Decimal characters of an integer: an optional minus sign, then digits. -/
def intDec (i : Int) : List Char :=
  if i < 0 then '-' :: natDec i.natAbs else natDec i.natAbs

/-- One character of a string body, escaped the way JSON.stringify does:
quote, backslash and the named control characters get two-character
escapes, the remaining control characters get a hexadecimal escape, and
every other character stands for itself. -/
def escCh (c : Char) : List Char :=
  if c = '"' then ['\\', '"']
  else if c = '\\' then ['\\', '\\']
  else if c = '\n' then ['\\', 'n']
  else if c = '\r' then ['\\', 'r']
  else if c = '\t' then ['\\', 't']
  else if c.toNat = 8 then ['\\', 'b']
  else if c.toNat = 12 then ['\\', 'f']
  else if c.toNat < 32 then
    ['\\', 'u', '0', '0', hexCh (c.toNat / 16), hexCh (c.toNat % 16)]
  else [c]

/-- Escape every character of a string body. -/
def escAll : List Char → List Char
  | [] => []
  | c :: t => escCh c ++ escAll t

/-- A rendered JSON string: quote, escaped body, quote. -/
def strJson (s : String) : List Char :=
  '"' :: (escAll s.toList ++ ['"'])

mutual
/-- Characters of the JSON rendering of a value (JSON.stringify emits no
whitespace). -/
def jChars : JsVal → List Char
  | .num i => intDec i
  | .null => ['n', 'u', 'l', 'l']
  | .str s => strJson s
  | .bool b => if b then ['t', 'r', 'u', 'e'] else ['f', 'a', 'l', 's', 'e']
  | .arr l => '[' :: (jCharsArr l ++ [']'])
  | .obj l => '{' :: (jCharsObj l ++ ['\x7d'])
/-- Comma-separated renderings of array elements. -/
def jCharsArr : List JsVal → List Char
  | [] => []
  | [x] => jChars x
  | x :: y :: t => jChars x ++ ',' :: jCharsArr (y :: t)
/-- Comma-separated key : value renderings of object fields. -/
def jCharsObj : List (String × JsVal) → List Char
  | [] => []
  | [(k, v)] => strJson k ++ ':' :: jChars v
  | (k, v) :: m :: t => strJson k ++ ':' :: (jChars v ++ ',' :: jCharsObj (m :: t))
end

/-- The model of JSON.stringify on this fragment. -/
def jsonStringify (v : JsVal) : String := ⟨jChars v⟩

/-! ### Parsing: the model of JSON.parse -/

/-- JSON insignificant whitespace. -/
def isJws (c : Char) : Bool := c = ' ' || c = '\n' || c = '\t' || c = '\r'

/-- Drop leading JSON whitespace. -/
def dropJws : List Char → List Char
  | [] => []
  | c :: t => if isJws c then dropJws t else c :: t

/-- Decimal digit test. -/
def isDigitCh (c : Char) : Bool := 48 ≤ c.toNat && c.toNat ≤ 57

/-- Split off the longest leading run of decimal digits. -/
def grabDigits : List Char → List Char × List Char
  | [] => ([], [])
  | c :: t =>
    if isDigitCh c then
      let (ds, r) := grabDigits t
      (c :: ds, r)
    else ([], c :: t)

/-- Numeric value of a run of decimal digit characters. -/
def valOfDigits (ds : List Char) : Nat :=
  ds.foldl (fun a c => a * 10 + (c.toNat - 48)) 0

/-- Parse an integer token: optional minus sign, then a nonempty digit
run.  (JSON fractions and exponents denote non-integer doubles, which
are outside this model.) -/
def intTok : List Char → Option (Int × List Char)
  | '-' :: r =>
    match grabDigits r with
    | ([], _) => none
    | (ds, r2) => some (-(valOfDigits ds : Int), r2)
  | cs =>
    match grabDigits cs with
    | ([], _) => none
    | (ds, r2) => some ((valOfDigits ds : Int), r2)

/-- Value of a hexadecimal digit character. -/
def hexDigitVal (c : Char) : Option Nat :=
  if 48 ≤ c.toNat ∧ c.toNat ≤ 57 then some (c.toNat - 48)
  else if 97 ≤ c.toNat ∧ c.toNat ≤ 102 then some (c.toNat - 87)
  else if 65 ≤ c.toNat ∧ c.toNat ≤ 70 then some (c.toNat - 55)
  else none

/-- Value of a four-hex-digit escape. -/
def hexQuad (a b c d : Char) : Option Nat := do
  let va ← hexDigitVal a
  let vb ← hexDigitVal b
  let vc ← hexDigitVal c
  let vd ← hexDigitVal d
  return va * 4096 + vb * 256 + vc * 16 + vd

/-- Decoded character of a two-character escape. -/
def escValOf (e : Char) : Option Char :=
  if e = '"' then some '"'
  else if e = '\\' then some '\\'
  else if e = '/' then some '/'
  else if e = 'n' then some '\n'
  else if e = 'r' then some '\r'
  else if e = 't' then some '\t'
  else if e = 'b' then some (Char.ofNat 8)
  else if e = 'f' then some (Char.ofNat 12)
  else none

/-- Parse the body of a JSON string after the opening quote, up to and
including the closing quote; yields the decoded characters. -/
def strTail : List Char → Option (List Char × List Char)
  | '"' :: r => some ([], r)
  | '\\' :: 'u' :: a :: b :: c :: d :: r => do
    let n ← hexQuad a b c d
    let (s, r2) ← strTail r
    return (Char.ofNat n :: s, r2)
  | '\\' :: e :: r => do
    let ch ← escValOf e
    let (s, r2) ← strTail r
    return (ch :: s, r2)
  | c :: r => do
    let (s, r2) ← strTail r
    return (c :: s, r2)
  | [] => none

mutual
/-- Recursive-descent JSON value parser.  The fuel argument decreases at
every recursive entry; the top level supplies more fuel than the input
length, which the round-trip theorems show is always enough. -/
def pVal : Nat → List Char → Option (JsVal × List Char)
  | 0, _ => none
  | fuel + 1, cs =>
    match dropJws cs with
    | 'n' :: 'u' :: 'l' :: 'l' :: r => some (.null, r)
    | 't' :: 'r' :: 'u' :: 'e' :: r => some (.bool true, r)
    | 'f' :: 'a' :: 'l' :: 's' :: 'e' :: r => some (.bool false, r)
    | '"' :: r => do
      let (s, r2) ← strTail r
      return (.str ⟨s⟩, r2)
    | '[' :: r =>
      (match dropJws r with
       | ']' :: r2 => some (.arr [], r2)
       | cs2 => do
         let (es, r2) ← pArr fuel cs2
         return (.arr es, r2))
    | '\x7b' :: r =>
      (match dropJws r with
       | '\x7d' :: r2 => some (.obj [], r2)
       | cs2 => do
         let (ms, r2) ← pObj fuel cs2
         return (.obj ms, r2))
    | c :: r =>
      if c = '-' || isDigitCh c then do
        let (i, r2) ← intTok (c :: r)
        return (.num i, r2)
      else none
    | [] => none
/-- One or more comma-separated array elements followed by the closing
bracket. -/
def pArr : Nat → List Char → Option (List JsVal × List Char)
  | 0, _ => none
  | fuel + 1, cs => do
    let (v, r) ← pVal fuel cs
    match dropJws r with
    | ',' :: r2 => do
      let (vs, r3) ← pArr fuel (dropJws r2)
      return (v :: vs, r3)
    | ']' :: r2 => some ([v], r2)
    | _ => none
/-- One or more comma-separated object members followed by the closing
brace. -/
def pObj : Nat → List Char → Option (List (String × JsVal) × List Char)
  | 0, _ => none
  | fuel + 1, cs =>
    match dropJws cs with
    | '"' :: r => do
      let (k, r1) ← strTail r
      match dropJws r1 with
      | ':' :: r2 => do
        let (v, r3) ← pVal fuel (dropJws r2)
        match dropJws r3 with
        | ',' :: r4 => do
          let (ms, r5) ← pObj fuel (dropJws r4)
          return ((⟨k⟩, v) :: ms, r5)
        | '\x7d' :: r4 => some ([(⟨k⟩, v)], r4)
        | _ => none
      | _ => none
    | _ => none
end

/-- The model of JSON.parse on this fragment: parse one value and
require only whitespace after it.  A parse failure is none, modelling
the SyntaxError JSON.parse throws. -/
def jsonParse (s : String) : Option JsVal :=
  let cs := s.toList
  match pVal (cs.length + 1) cs with
  | some (v, r) => if dropJws r = [] then some v else none
  | none => none

/-! ### The Wire Codec of ServiceMeshClient (node.js lines 193-220)

encode and decode dispatch on typeof msg through the primitives table.
A Buffer carries the UTF-8 bytes of a string; Buffer.from and toString
invert each other, so a Buffer is modelled by its string.  A thrown
TypeError (the boolean typeof hits no table entry, so undefined is
called) and a thrown SyntaxError (JSON.parse on malformed input) are
the error results. -/

/-- A JavaScript exception relevant to the client. -/
inductive JsErr where
  | typeErr
  | parseErr
deriving Repr, DecidableEq

/-- A value as it appears on the socket: a binary buffer, a bare string
or a bare number (the kinds the decode table dispatches on). -/
inductive Wire where
  | buf (s : String)
  | str (s : String)
  | num (n : Int)
deriving Repr, DecidableEq

/-- encode (node.js 210-214): primitives.encode[typeof msg](msg).  The
object, string and number entries all produce Buffer.from of
JSON.stringify; a typeof with no table entry calls undefined, a
TypeError. -/
def encode (msg : JsVal) : Except JsErr Wire :=
  if jsTypeof msg = "object" ∨ jsTypeof msg = "string" ∨ jsTypeof msg = "number" then
    .ok (.buf (jsonStringify msg))
  else .error .typeErr

/-- decode (node.js 216-220): primitives.decode[typeof msg](msg).  A
Buffer has typeof object and is parsed as JSON; a bare string or number
passes through unchanged. -/
def decode (w : Wire) : Except JsErr JsVal :=
  match w with
  | .buf s =>
    match jsonParse s with
    | some v => .ok v
    | none => .error .parseErr
  | .str s => .ok (.str s)
  | .num n => .ok (.num n)

/-!
Part 2 models the connection manager of ServiceMeshClient: the send
queue with its disk overflow (send, manageSendQueue, saveSendQueue,
sendQueuedMsgs), the socket event handlers installed by connect, the
heartbeat loop and close.  State is passed explicitly through the Mesh
record; externally observable actions are appended to a trace.  setTimeout
only schedules, so a scheduled callback appears as a schedule effect and
timer firings are modelled by calling the scheduled operation on a later
state.  Throwing JavaScript code is an Except; operations whose every
failure path is caught in the source are total.
-/

/-- Event name constants (node.js 27-29). -/
def TIMEOUTEVENT : String := "webswitchTimeout"

/-- See TIMEOUTEVENT. -/
def CONNECTERROR : String := "webswitchConnect"

/-- See TIMEOUTEVENT. -/
def WSOCKETERROR : String := "webswitchWsocket"

/-- Heartbeat wait: config.heartbeat || 10000 (node.js 38), at the
default configuration. -/
def heartbeatms : Nat := 10000

/-- A listener on the client emitter: a numbered application subscriber,
or the failure detection the circuit breaker registers through
detectErrors. -/
inductive Listener where
  | user (id : Nat)
  | breakerDetect
deriving Repr, DecidableEq

/-- A setTimeout target in node.js: connect (reconnection), heartbeat
(the liveness loop), sendQueuedMsgs (the queue flush after open). -/
inductive TimerAct where
  | connectT
  | heartbeatT
  | flushT
deriving Repr, DecidableEq

/-- An externally observable action of the client, in order of
occurrence. -/
inductive Effect where
  | transmit (frame : String)
  | ping
  | wsClose (code : Nat) (reason : String)
  | wsTerminate
  | emitEvt (name : JsVal) (payload : JsVal)
  | invokeL (l : Listener)
  | schedule (act : TimerAct) (delayMs : Nat)
  | clearT
  | logLine (tag : String)
  | breakerCaught

/-- The underlying WebSocket: readyState (OPEN is 1) and the unsent-byte
backlog bufferedAmount. -/
structure Ws where
  readyState : Nat
  bufferedAmount : Nat
deriving Repr, DecidableEq

/-- The state of a ServiceMeshClient (constructor, node.js 60-78), its
process environment, and the trace of effects performed so far.  tbl is
the EventEmitter listener table in registration order; a wildcard
subscriber is registered under the name given by the asterisk character
and is invoked through this.listeners in the message handler.
fileContent and fileSize model the persisted queue file read by stat,
readFileSync and JSON.parse (none: missing or unparseable).  hostname,
pid, serviceList and telemetryData stand for the process environment
sampled by telemetry. -/
structure Mesh where
  ws : Option Ws := none
  pong : Bool := true
  reconnecting : Bool := false
  sendQueue : List JsVal := []
  sendQueueLimit : Nat := 20
  tbl : List (String × Listener) := []
  fileContent : Option (List JsVal) := none
  fileSize : Nat := 0
  hostname : String := "host"
  pid : Nat := 0
  serviceList : List String := []
  telemetryData : JsVal := .obj []
  trace : List Effect := []

/-- The state a ServiceMeshClient is constructed in. -/
def initialMesh : Mesh := {}

/-- The send guard (node.js 223-227): this.ws is non-null, its
readyState is OPEN and bufferedAmount is below one. -/
def openNoBacklog (s : Mesh) : Bool :=
  match s.ws with
  | some w => decide (w.readyState = 1) && decide (w.bufferedAmount < 1)
  | none => false

/-- The listeners an emit with this key reaches: EventEmitter keys are
compared by identity, so only a string key can match the string-keyed
registrations in the table; order is registration order. -/
def listenersFor (tbl : List (String × Listener)) (name : JsVal) : List Listener :=
  match name with
  | .str n => (tbl.filter (fun e => e.1 == n)).map (fun e => e.2)
  | _ => []

/-- Effects of this.emit(name, payload): the emit itself, then each
matching listener runs. -/
def emitEffects (tbl : List (String × Listener)) (name payload : JsVal) : List Effect :=
  .emitEvt name payload :: (listenersFor tbl name).map .invokeL

/-- Perform this.emit(name, payload). -/
def emitF (s : Mesh) (name payload : JsVal) : Mesh :=
  { s with trace := s.trace ++ emitEffects s.tbl name payload }

/-- subscribe(eventName, callback) (node.js 284-286) is this.on. -/
def subscribe (name : String) (l : Listener) (s : Mesh) : Mesh :=
  { s with tbl := s.tbl ++ [(name, l)] }

/-- telemetry() (node.js 86-97).  services() of the default options
returns the stored serviceList; state is this.ws?.readyState when that
is truthy, the string undefined otherwise. -/
def telemetry (s : Mesh) : JsVal :=
  .obj [("eventName", .str "telemetry"),
        ("proto", .str "webswitch"),
        ("hostname", .str s.hostname),
        ("role", .str "node"),
        ("pid", .num (s.pid : Int)),
        ("telemetry", s.telemetryData),
        ("services", .arr (s.serviceList.map .str)),
        ("state", match s.ws with
          | some w => if w.readyState ≠ 0 then .num (w.readyState : Int)
                      else .str "undefined"
          | none => .str "undefined")]

/-- Modelled from the spec: CircuitBreaker.invoke
(domain/circuit-breaker.js is not under src).  invoke runs the wrapped
transmit callback ws.send(encode(msg)); a failure-counting wrapper, it
records a thrown error (here: encode on a typeof with no table entry)
instead of propagating it. -/
def breakerInvoke (msg : JsVal) (s : Mesh) : Mesh :=
  match encode msg with
  | .ok (.buf frame) => { s with trace := s.trace ++ [.transmit frame] }
  | .ok _ => s
  | .error _ => { s with trace := s.trace ++ [.breakerCaught] }

/-- Modelled from the spec: CircuitBreaker.detectErrors(eventNames,
this) subscribes the breaker failure detection to the given event names
on the client emitter; registration is idempotent per name. -/
def detectErrors (names : List String) (tbl : List (String × Listener)) :
    List (String × Listener) :=
  names.foldl (fun t n =>
    if (n, Listener.breakerDetect) ∈ t then t else t ++ [(n, .breakerDetect)]) tbl

/-- saveSendQueue(sender) (node.js 253-276) as the higher-order
operation the source defines: sender is the resend callback, given the
queue to resend, returning the entries left unsent (its resolved value)
and the state after its own effects.  Below one-and-a-half times the
cap: just resend.  At or above: stat the file; over 99999999 bytes, log
and stop; otherwise read and parse the file, concatenate stored and
current queue, run the callback, and write its resolved value back.
An unparseable file is caught and logged.  For a missing file the
source in fact stalls before the read: the stat callback throws on
stats.size, the awaited promise never resolves, and the write path is
silently abandoned; the none branch below stands in for the one thing
that matters to the spill contract - the file is never touched and the
callback never runs - and no theorem relies on that branch.
File size after a write is its JSON character count. -/
def saveSendQueueWith (sender : List JsVal → Mesh → List JsVal × Mesh) (s : Mesh) : Mesh :=
  if 2 * s.sendQueue.length < 3 * s.sendQueueLimit then
    (sender s.sendQueue s).2
  else if s.fileSize > 99999999 then
    { s with trace := s.trace ++ [.logLine "queue backing store too large"] }
  else
    match s.fileContent with
    | none => { s with trace := s.trace ++ [.logLine "saveSendQueue error"] }
    | some stored =>
      let concatQueue := stored ++ s.sendQueue
      let (unsent, s2) := sender concatQueue s
      { s2 with fileContent := some unsent,
                fileSize := (jChars (.arr unsent)).length }

/-- saveSendQueue at the concrete callback manageSendQueue builds: the
callback drains this.sendQueue through resend and resolves with its
queue argument unchanged. -/
def saveWith (resend : Mesh → Mesh) (s : Mesh) : Mesh :=
  saveSendQueueWith (fun q s2 => (q, resend s2)) s

/-- manageSendQueue(msg) (node.js 243-251): push msg, then saveSendQueue
with the resend callback. -/
def manageWith (resend : Mesh → Mesh) (msg : JsVal) (s : Mesh) : Mesh :=
  saveWith resend { s with sendQueue := s.sendQueue ++ [msg] }

/-- send(msg) (node.js 222-241), parameterized by the resend callback
reached through the overflow path.  Open socket without backlog: the
breaker wraps the transmit, detectErrors first, true returned.  Queue
below sendQueueLimit: push, false.  Otherwise manageSendQueue, false. -/
def sendWith (resend : Mesh → Mesh) (msg : JsVal) (s : Mesh) : Bool × Mesh :=
  if openNoBacklog s then
    (true, breakerInvoke msg
      { s with tbl := detectErrors [TIMEOUTEVENT, CONNECTERROR, WSOCKETERROR] s.tbl })
  else if s.sendQueue.length < s.sendQueueLimit then
    (false, { s with sendQueue := s.sendQueue ++ [msg] })
  else
    (false, manageWith resend msg s)

/-- sendQueuedMsgs() (node.js 185-191): while the queue is nonempty, pop
the most recent entry and send it (its queue argument in the source is
ignored; it always drains this.sendQueue).  The recursion is unbounded
in the source: with the socket unable to transmit and the queue at or
above the cap, the popped entry is re-pushed inside send, which
re-enters this drain, and the call never returns (a real runtime cuts
it only by stack exhaustion, at an arbitrary point whose aftermath -
including a possibly dropped in-flight entry - is chaotic and not
modelled).  fuel bounds this recursion; fuel exhaustion stops the model
cleanly at an iteration boundary, which is an idealization: whether a
run truly completed within its fuel is recorded by drainCompletes and
sendCompletes below, and at the divergent states no fuel completes, so
no theorem may read the post-cut state as the outcome of the source
there. -/
def sendQueuedMsgs : Nat → Mesh → Mesh
  | 0, s => s
  | fuel + 1, s =>
    match s.sendQueue.getLast? with
    | none => s
    | some m =>
      sendQueuedMsgs fuel
        (sendWith (sendQueuedMsgs fuel) m { s with sendQueue := s.sendQueue.dropLast }).2

/-- send(msg) at recursion bound fuel. -/
def sendF (fuel : Nat) (msg : JsVal) (s : Mesh) : Bool × Mesh :=
  sendWith (sendQueuedMsgs fuel) msg s

/-- manageSendQueue(msg) at recursion bound fuel. -/
def manageSendQueue (fuel : Nat) (msg : JsVal) (s : Mesh) : Mesh :=
  manageWith (sendQueuedMsgs fuel) msg s

/-- saveSendQueue at the concrete callback, at recursion bound fuel. -/
def saveSendQueue (fuel : Nat) (s : Mesh) : Mesh :=
  saveWith (sendQueuedMsgs fuel) s

/-- Whether the synchronous prefix of saveSendQueue returns, given
whether the drain returns.  saveSendQueue is async and manageSendQueue
does not await it, so send returns when that prefix does.  In the
below-cap branch the first await is on sender(this.sendQueue), and the
Promise executor of the concrete callback runs sendQueuedMsgs at once,
during argument evaluation - so the whole drain runs synchronously and
its divergence is inherited.  In the disk branch the first await is the
stat promise, whose callback is asynchronous, so the prefix ends there
and the caller returns promptly whatever the file state. -/
def saveCompletesWith (drainC : Mesh → Bool) (s : Mesh) : Bool :=
  if 2 * s.sendQueue.length < 3 * s.sendQueueLimit then drainC s
  else true

/-- Whether the synchronous manageSendQueue call returns: push, then the
saveSendQueue prefix. -/
def manageCompletesWith (drainC : Mesh → Bool) (msg : JsVal) (s : Mesh) : Bool :=
  saveCompletesWith drainC { s with sendQueue := s.sendQueue ++ [msg] }

/-- Whether the synchronous send call returns, given whether the drain
returns: immediately on a transmit or a plain push, through
manageSendQueue on overflow. -/
def sendCompletesWith (drainC : Mesh → Bool) (msg : JsVal) (s : Mesh) : Bool :=
  if openNoBacklog s then true
  else if s.sendQueue.length < s.sendQueueLimit then true
  else manageCompletesWith drainC msg s

/-- Whether the drain loop of sendQueuedMsgs runs to completion within
the given recursion budget: an empty queue completes at once, otherwise
the popped send must return within the remaining budget and the loop
must then complete on the resulting state.  Divergence of the source is
the failure of this at every budget. -/
def drainCompletes : Nat → Mesh → Bool
  | 0, s => s.sendQueue.isEmpty
  | fuel + 1, s =>
    match s.sendQueue.getLast? with
    | none => true
    | some m =>
      sendCompletesWith (drainCompletes fuel) m
          { s with sendQueue := s.sendQueue.dropLast }
        && drainCompletes fuel (sendF fuel m { s with sendQueue := s.sendQueue.dropLast }).2

/-- Whether the synchronous send call returns within the given recursion
budget. -/
def sendCompletes (fuel : Nat) (msg : JsVal) (s : Mesh) : Bool :=
  sendCompletesWith (drainCompletes fuel) msg s


/-- close(code, reason) (node.js 288-294): log, remove the socket
listeners, close and terminate the transport, null the socket.  With no
socket, this.ws.removeAllListeners() dereferences null: TypeError. -/
def closeF (code : Nat) (reason : String) (s : Mesh) : Except JsErr Mesh :=
  match s.ws with
  | none => .error .typeErr
  | some _ =>
    .ok { s with ws := none,
                 trace := s.trace
                   ++ [.logLine "closing socket", .wsClose code reason, .wsTerminate] }

/-- heartbeat() (node.js 170-183).  pong set: clear it, ping, reschedule
(the ping dereferences a null socket: TypeError).  pong missing: if
already reconnecting do nothing, else mark reconnecting, warn, close
4877, schedule connect in 5000 ms, and emit the timeout event carrying
the current telemetry. -/
def heartbeatF (s : Mesh) : Except JsErr Mesh :=
  if s.pong then
    match s.ws with
    | none => .error .typeErr
    | some _ =>
      .ok { s with pong := false,
                   trace := s.trace ++ [.ping, .schedule .heartbeatT heartbeatms] }
  else if s.reconnecting then .ok s
  else
    match closeF 4877 "timeout"
        { s with reconnecting := true, trace := s.trace ++ [.logLine "timeout"] } with
    | .error e => .error e
    | .ok s2 =>
      .ok (emitF { s2 with trace := s2.trace ++ [.schedule .connectT 5000] }
            (.str TIMEOUTEVENT) (telemetry s2))

/-- The close-event handler (node.js 127-137): log, emit the
connect-error event with the close reason; on code 1006 or 4040, unless
already reconnecting: set the flag, clear the pending timer, tear the
socket down, schedule connect in 8000 ms. -/
def handleClose (code : Nat) (reason : String) (s : Mesh) : Except JsErr Mesh :=
  let s1 := emitF { s with trace := s.trace ++ [.logLine "received close frame"] }
              (.str CONNECTERROR) (.str reason)
  if code = 1006 ∨ code = 4040 then
    if s1.reconnecting then .ok s1
    else
      match closeF code reason
          { s1 with reconnecting := true, trace := s1.trace ++ [.clearT] } with
      | .error e => .error e
      | .ok s2 => .ok { s2 with trace := s2.trace ++ [.schedule .connectT 8000] }
  else .ok s1

/-- The open-event handler (node.js 139-145): log, clear the
reconnecting flag, send the telemetry record, run heartbeat, schedule
the queue flush after 1000 ms. -/
def handleOpen (fuel : Nat) (s : Mesh) : Except JsErr Mesh :=
  let s1 := { s with reconnecting := false,
                     trace := s.trace ++ [.logLine "connection open"] }
  let s2 := (sendF fuel (telemetry s1) s1).2
  match heartbeatF s2 with
  | .error e => .error e
  | .ok s3 => .ok { s3 with trace := s3.trace ++ [.schedule .flushT 1000] }

/-- The pong handler (node.js 167). -/
def handlePong (s : Mesh) : Mesh := { s with pong := true }

/-- JavaScript property access event.eventName on the decoded value:
throws on null, yields the property on an object, undefined (none)
otherwise. -/
def getProp (v : JsVal) (key : String) : Except JsErr (Option JsVal) :=
  match v with
  | .null => .error .typeErr
  | .obj fields => .ok (objGet key fields)
  | _ => .ok none

/-- The message handler (node.js 147-160), whose body a try/catch wraps:
decode the frame; a decode error or a thrown property access is caught
and logged.  A falsy eventName: emit the missing-event-name diagnostic
and stop.  Otherwise emit under the eventName, then invoke every
wildcard subscriber with the event. -/
def handleMessage (w : Wire) (s : Mesh) : Mesh :=
  match decode w with
  | .error _ => { s with trace := s.trace ++ [.logLine "message handler error"] }
  | .ok ev =>
    match getProp ev "eventName" with
    | .error _ => { s with trace := s.trace ++ [.logLine "message handler error"] }
    | .ok val =>
      let nameVal := val.getD .null
      if jsTruthy nameVal then
        let s1 := emitF s nameVal ev
        { s1 with trace := s1.trace ++ (listenersFor s1.tbl (.str "*")).map .invokeL }
      else
        emitF s (.str "missingEventName") ev

/-! Scenario harness used by the queue claims. -/

/-- Fold send over a message list. -/
def runSends (fuel : Nat) (msgs : List JsVal) (s : Mesh) : Mesh :=
  msgs.foldl (fun st m => (sendF fuel m st).2) s

/-- True when a send from this state takes the overflow path
(manageSendQueue): no immediate transmit and the queue is at the cap. -/
def overflowEntry (s : Mesh) : Bool :=
  !openNoBacklog s && !(s.sendQueue.length < s.sendQueueLimit)

/-- For each message in turn, whether its send takes the overflow path. -/
def sendsOverflowFlags (fuel : Nat) (msgs : List JsVal) (s : Mesh) : List Bool :=
  (msgs.foldl (fun (acc : List Bool × Mesh) m =>
    (acc.1 ++ [overflowEntry acc.2], (sendF fuel m acc.2).2)) ([], s)).1

/-- Envelopes recoverable after a run: the in-memory queue plus the
persisted queue file. -/
def recoverableCount (s : Mesh) : Nat :=
  s.sendQueue.length + (s.fileContent.getD []).length

/-- The schedule effects of a trace segment, in order. -/
def schedules (l : List Effect) : List (TimerAct × Nat) :=
  l.filterMap (fun e => match e with | .schedule a d => some (a, d) | _ => none)

/-- The transmitted frames of a trace segment, in order. -/
def transmitsOf (l : List Effect) : List String :=
  l.filterMap (fun e => match e with | .transmit f => some f | _ => none)

/-- The listener invocations of a trace segment, in order. -/
def invokesOf (l : List Effect) : List Listener :=
  l.filterMap (fun e => match e with | .invokeL x => some x | _ => none)

/-- The ping effects of a trace segment. -/
def pingsOf (l : List Effect) : List Effect :=
  l.filter (fun e => match e with | .ping => true | _ => false)
/-- True when the input cannot extend a digit run: empty, or headed by a
non-digit.  Every delimiter the serializer emits after a number
qualifies. -/
def noDigitAhead : List Char → Bool
  | [] => true
  | c :: _ => !isDigitCh c

/-! ### Round-trip lemmas for the codec model -/

theorem digCh_spec (k : Nat) (h : k < 10) :
    (digCh k).toNat = 48 + k ∧ isDigitCh (digCh k) = true := by
  interval_cases k <;> exact ⟨by decide, by decide⟩

theorem natDec_ne_nil (n : Nat) : natDec n ≠ [] := by
  rw [natDec.eq_def]
  split <;> simp

theorem natDec_digits (n : Nat) : ∀ c ∈ natDec n, isDigitCh c = true := by
  induction n using Nat.strong_induction_on with
  | _ n ih =>
    rw [natDec.eq_def]
    split
    · rename_i h
      intro c hc
      rw [List.mem_singleton] at hc
      subst hc
      exact (digCh_spec n h).2
    · rename_i h
      intro c hc
      rcases List.mem_append.mp hc with h1 | h2
      · exact ih (n / 10) (by omega) c h1
      · rw [List.mem_singleton] at h2
        subst h2
        exact (digCh_spec (n % 10) (by omega)).2

theorem valOfDigits_append_one (xs : List Char) (c : Char) :
    valOfDigits (xs ++ [c]) = 10 * valOfDigits xs + (c.toNat - 48) := by
  simp [valOfDigits, List.foldl_append]
  omega

theorem valOfDigits_natDec (n : Nat) : valOfDigits (natDec n) = n := by
  induction n using Nat.strong_induction_on with
  | _ n ih =>
    rw [natDec.eq_def]
    split
    · rename_i h
      simp [valOfDigits, (digCh_spec n h).1]
    · rename_i h
      rw [valOfDigits_append_one, ih (n / 10) (by omega), (digCh_spec (n % 10) (by omega)).1]
      omega

theorem grabDigits_split (ds : List Char) (hds : ∀ c ∈ ds, isDigitCh c = true)
    (rest : List Char) (hr : noDigitAhead rest = true) :
    grabDigits (ds ++ rest) = (ds, rest) := by
  induction ds with
  | nil =>
    match rest with
    | [] => rfl
    | c :: t =>
      have hc : isDigitCh c = false := by
        simpa [noDigitAhead] using hr
      simp [grabDigits, hc]
  | cons c t ih =>
    have hc := hds c (by simp)
    have ht := ih (fun x hx => hds x (by simp [hx]))
    simp [grabDigits, hc, ht]

theorem digit_ne_minus {c : Char} (h : isDigitCh c = true) : c ≠ '-' := by
  intro h2
  rw [h2] at h
  exact absurd h (by decide)

theorem intTok_intDec (i : Int) (rest : List Char) (hr : noDigitAhead rest = true) :
    intTok (intDec i ++ rest) = some (i, rest) := by
  by_cases hi : i < 0
  · have harg : intDec i ++ rest = '-' :: (natDec i.natAbs ++ rest) := by
      simp [intDec, hi]
    obtain ⟨c, t, hct⟩ := List.exists_cons_of_ne_nil (natDec_ne_nil i.natAbs)
    rw [harg]
    simp only [intTok]
    rw [grabDigits_split _ (natDec_digits _) _ hr, hct]
    have hni : ((i.natAbs : Int)) = -i := Int.ofNat_natAbs_of_nonpos (by omega)
    simp [← hct, valOfDigits_natDec, hni]
  · have harg : intDec i ++ rest = natDec i.natAbs ++ rest := by
      simp [intDec, hi]
    obtain ⟨c, t, hct⟩ := List.exists_cons_of_ne_nil (natDec_ne_nil i.natAbs)
    have hc : isDigitCh c = true := natDec_digits i.natAbs c (hct ▸ List.mem_cons_self ..)
    have hm : c ≠ '-' := digit_ne_minus hc
    rw [harg, hct, List.cons_append]
    rw [intTok.eq_def]
    split
    · rename_i heq
      rw [List.cons.injEq] at heq
      exact absurd heq.1 hm
    · rename_i cs heq
      rw [← List.cons_append, ← hct, grabDigits_split _ (natDec_digits _) _ hr, hct]
      have hni : ((i.natAbs : Int)) = i := Int.natAbs_of_nonneg (by omega)
      simp [← hct, valOfDigits_natDec, hni]


theorem hexDigitVal_hexCh (k : Nat) (h : k < 16) : hexDigitVal (hexCh k) = some k := by
  interval_cases k <;> decide

theorem strTail_escCh (c : Char) (X : List Char) :
    strTail (escCh c ++ X) = (strTail X).map (fun p => (c :: p.1, p.2)) := by
  rw [escCh.eq_def]
  split_ifs with h1 h2 h3 h4 h5 h6 h7 h8
  · subst h1
    cases hX : strTail X <;> simp [strTail, escValOf, hX]
  · subst h2
    cases hX : strTail X <;> simp [strTail, escValOf, hX]
  · subst h3
    cases hX : strTail X <;> simp [strTail, escValOf, hX]
  · subst h4
    cases hX : strTail X <;> simp [strTail, escValOf, hX]
  · subst h5
    cases hX : strTail X <;> simp [strTail, escValOf, hX]
  · have hc : c = Char.ofNat 8 := by
      have := Char.ofNat_toNat c
      rw [h6] at this
      exact this.symm
    subst hc
    cases hX : strTail X <;> simp [strTail, escValOf, hX]
  · have hc : c = Char.ofNat 12 := by
      have := Char.ofNat_toNat c
      rw [h7] at this
      exact this.symm
    subst hc
    cases hX : strTail X <;> simp [strTail, escValOf, hX]
  · have hhi : c.toNat / 16 < 16 := by omega
    have hlo : c.toNat % 16 < 16 := by omega
    have hquad : hexQuad '0' '0' (hexCh (c.toNat / 16)) (hexCh (c.toNat % 16))
        = some c.toNat := by
      simp [hexQuad, hexDigitVal_hexCh _ hhi, hexDigitVal_hexCh _ hlo,
        (by decide : hexDigitVal '0' = some 0)]
      omega
    cases hX : strTail X <;>
      simp [strTail, hquad, hX, Char.ofNat_toNat]
  · rw [List.singleton_append, strTail.eq_def]
    cases hX : strTail X <;> split <;> simp_all [escValOf]

theorem strTail_escAll (cs : List Char) : ∀ X : List Char,
    strTail (escAll cs ++ '"' :: X) = some (cs, X) := by
  induction cs with
  | nil => intro X; simp [escAll, strTail]
  | cons c t ih =>
    intro X
    rw [escAll, List.append_assoc, strTail_escCh, ih]
    rfl

/-- Parsing a rendered string recovers it: the string-body inverse. -/
theorem strTail_strJson (s : String) (X : List Char) :
    strTail (escAll s.toList ++ '"' :: X) = some (s.toList, X) :=
  strTail_escAll s.toList X

theorem ne_char_of_digit {c : Char} (h : isDigitCh c = true) (d : Char)
    (hd : d.toNat < 48 ∨ 57 < d.toNat) : c ≠ d := by
  intro h2
  rw [h2] at h
  simp [isDigitCh] at h
  omega

theorem digit_not_jws {c : Char} (h : isDigitCh c = true) : isJws c = false := by
  simp only [isJws, Bool.or_eq_false_iff, decide_eq_false_iff_not]
  exact ⟨⟨⟨ne_char_of_digit h ' ' (by decide), ne_char_of_digit h '\n' (by decide)⟩,
    ne_char_of_digit h '\t' (by decide)⟩, ne_char_of_digit h '\r' (by decide)⟩

theorem dropJws_cons {c : Char} (h : isJws c = false) (t : List Char) :
    dropJws (c :: t) = c :: t := by
  simp [dropJws, h]

theorem noDigitAhead_cons {c : Char} (h : isDigitCh c = false) (t : List Char) :
    noDigitAhead (c :: t) = true := by
  simp [noDigitAhead, h]

/-- Every rendered value starts with a significant character that closes
neither an array nor an object. -/
theorem jChars_head (v : JsVal) :
    ∃ c t, jChars v = c :: t ∧ isJws c = false ∧ c ≠ ']' ∧ c ≠ '\x7d' := by
  cases v with
  | null => exact ⟨'n', _, rfl, by decide, by decide, by decide⟩
  | bool b =>
    cases b with
    | false => exact ⟨'f', _, rfl, by decide, by decide, by decide⟩
    | true => exact ⟨'t', _, rfl, by decide, by decide, by decide⟩
  | num i =>
    by_cases hi : i < 0
    · exact ⟨'-', natDec i.natAbs, by simp [jChars, intDec, hi], by decide, by decide,
        by decide⟩
    · obtain ⟨c, t, hct⟩ := List.exists_cons_of_ne_nil (natDec_ne_nil i.natAbs)
      have hc : isDigitCh c = true := natDec_digits i.natAbs c (hct ▸ List.mem_cons_self ..)
      exact ⟨c, t, by simp [jChars, intDec, hi, hct], digit_not_jws hc,
        ne_char_of_digit hc ']' (by decide), ne_char_of_digit hc '\x7d' (by decide)⟩
  | str s => exact ⟨'"', escAll s.toList ++ ['"'], by simp [jChars, strJson], by decide,
      by decide, by decide⟩
  | arr l => exact ⟨'[', jCharsArr l ++ [']'], by simp [jChars], by decide, by decide,
      by decide⟩
  | obj l => exact ⟨'\x7b', jCharsObj l ++ ['\x7d'], by simp [jChars], by decide, by decide,
      by decide⟩

theorem dropJws_jChars (v : JsVal) (X : List Char) :
    dropJws (jChars v ++ X) = jChars v ++ X := by
  obtain ⟨c, t, hv, hws, _, _⟩ := jChars_head v
  rw [hv, List.cons_append, dropJws_cons hws]

theorem jChars_len_pos (v : JsVal) : 0 < (jChars v).length := by
  obtain ⟨c, t, hv, _, _, _⟩ := jChars_head v
  simp [hv]

theorem jCharsArr_head_eq (y : JsVal) (t2 : List JsVal) :
    ∃ z, jCharsArr (y :: t2) = jChars y ++ z := by
  cases t2 with
  | nil => exact ⟨[], by simp [jCharsArr]⟩
  | cons m t3 => exact ⟨',' :: jCharsArr (m :: t3), by simp [jCharsArr]⟩

theorem jCharsObj_head_eq (m : String × JsVal) (t2 : List (String × JsVal)) :
    ∃ z, jCharsObj (m :: t2) = strJson m.1 ++ z := by
  obtain ⟨k, v⟩ := m
  cases t2 with
  | nil => exact ⟨':' :: jChars v, by simp [jCharsObj]⟩
  | cons m2 t3 => exact ⟨':' :: (jChars v ++ ',' :: jCharsObj (m2 :: t3)), by simp [jCharsObj]⟩

theorem dropJws_jCharsArr (y : JsVal) (t2 : List JsVal) (X : List Char) :
    dropJws (jCharsArr (y :: t2) ++ X) = jCharsArr (y :: t2) ++ X := by
  obtain ⟨z, hz⟩ := jCharsArr_head_eq y t2
  rw [hz, List.append_assoc]
  exact dropJws_jChars y (z ++ X)

theorem dropJws_jCharsObj (m : String × JsVal) (t2 : List (String × JsVal)) (X : List Char) :
    dropJws (jCharsObj (m :: t2) ++ X) = jCharsObj (m :: t2) ++ X := by
  obtain ⟨z, hz⟩ := jCharsObj_head_eq m t2
  rw [hz, List.append_assoc, strJson, List.cons_append]
  exact dropJws_cons (by decide) _

/-- The array branch of the parser reduces to pArr when the element list
is nonempty (its head closes no bracket). -/
theorem pVal_arrBranch (x : JsVal) (t : List JsVal) (f : Nat) (X : List Char) :
    pVal (f + 1) ('[' :: (jCharsArr (x :: t) ++ ']' :: X))
      = (pArr f (jCharsArr (x :: t) ++ ']' :: X)).bind
          (fun p => some (.arr p.1, p.2)) := by
  obtain ⟨z, hz⟩ := jCharsArr_head_eq x t
  obtain ⟨c, t2, hx, hws, hne, _⟩ := jChars_head x
  have hshape : jCharsArr (x :: t) ++ ']' :: X = c :: (t2 ++ (z ++ ']' :: X)) := by
    rw [hz, hx]
    simp
  simp only [pVal]
  rw [dropJws_cons (by decide)]
  rw [hshape]
  simp [dropJws_cons hws, hne]

/-- The object branch of the parser reduces to pObj when the member list
is nonempty (its head is a quote, not a closing brace). -/
theorem pVal_objBranch (m : String × JsVal) (t : List (String × JsVal)) (f : Nat)
    (X : List Char) :
    pVal (f + 1) ('\x7b' :: (jCharsObj (m :: t) ++ '\x7d' :: X))
      = (pObj f (jCharsObj (m :: t) ++ '\x7d' :: X)).bind
          (fun p => some (.obj p.1, p.2)) := by
  obtain ⟨z, hz⟩ := jCharsObj_head_eq m t
  have hshape : jCharsObj (m :: t) ++ '\x7d' :: X
      = '"' :: (escAll m.1.toList ++ ['"'] ++ (z ++ '\x7d' :: X)) := by
    rw [hz, strJson]
    simp
  simp only [pVal]
  rw [dropJws_cons (by decide)]
  rw [hshape]
  simp [dropJws_cons (show isJws '"' = false by decide)]

mutual
/-- Parsing a rendered value recovers it, given fuel beyond its length
and a remainder that cannot extend a number token. -/
theorem rt_val : ∀ (v : JsVal) (fuel : Nat) (rest : List Char),
    (jChars v).length < fuel → noDigitAhead rest = true →
    pVal fuel (jChars v ++ rest) = some (v, rest)
  | .null, fuel, rest, hf, _ => by
    cases fuel with
    | zero => simp [jChars] at hf
    | succ f => simp [jChars, pVal, dropJws, isJws]
  | .bool b, fuel, rest, hf, _ => by
    cases fuel with
    | zero => cases b <;> simp [jChars] at hf
    | succ f => cases b <;> simp [jChars, pVal, dropJws, isJws]
  | .num i, fuel, rest, hf, hr => by
    cases fuel with
    | zero => exact absurd hf (Nat.not_lt_zero _)
    | succ f =>
      have hI : intTok (intDec i ++ rest) = some (i, rest) := intTok_intDec i rest hr
      have hJ : jChars (.num i) = intDec i := by simp [jChars]
      by_cases hi : i < 0
      · have harg : intDec i ++ rest = '-' :: (natDec i.natAbs ++ rest) := by
          simp [intDec, hi]
        rw [hJ, harg]
        rw [harg] at hI
        simp only [pVal]
        rw [dropJws_cons (by decide)]
        simp [hI]
      · obtain ⟨c, t, hct⟩ := List.exists_cons_of_ne_nil (natDec_ne_nil i.natAbs)
        have hc : isDigitCh c = true := natDec_digits i.natAbs c (hct ▸ List.mem_cons_self ..)
        have harg : intDec i ++ rest = c :: (t ++ rest) := by
          simp [intDec, hi, hct]
        rw [hJ, harg]
        rw [harg] at hI
        simp only [pVal]
        rw [dropJws_cons (digit_not_jws hc)]
        simp [hI, hc, ne_char_of_digit hc 'n' (by decide), ne_char_of_digit hc 't' (by decide),
          ne_char_of_digit hc 'f' (by decide), ne_char_of_digit hc '"' (by decide),
          ne_char_of_digit hc '[' (by decide), ne_char_of_digit hc '\x7b' (by decide)]
  | .str s, fuel, rest, hf, _ => by
    cases fuel with
    | zero => exact absurd hf (Nat.not_lt_zero _)
    | succ f =>
      have harg : jChars (.str s) ++ rest = '"' :: (escAll s.toList ++ '"' :: rest) := by
        simp [jChars, strJson]
      rw [harg]
      simp only [pVal]
      rw [dropJws_cons (by decide)]
      simp [strTail_escAll]
  | .arr [], fuel, rest, hf, _ => by
    cases fuel with
    | zero => simp [jChars, jCharsArr] at hf
    | succ f =>
      have harg : jChars (.arr []) ++ rest = '[' :: ']' :: rest := by
        simp [jChars, jCharsArr]
      rw [harg]
      simp [pVal, dropJws, isJws]
  | .arr (x :: t), fuel, rest, hf, _ => by
    cases fuel with
    | zero => exact absurd hf (Nat.not_lt_zero _)
    | succ f =>
      have hfa : (jCharsArr (x :: t)).length + 1 < f := by
        simp only [jChars, List.length_cons, List.length_append, List.length_singleton] at hf
        omega
      have key := rt_arr x t f rest hfa
      have harg : jChars (.arr (x :: t)) ++ rest
          = '[' :: (jCharsArr (x :: t) ++ ']' :: rest) := by
        simp [jChars]
      rw [harg, pVal_arrBranch, key]
      rfl
  | .obj [], fuel, rest, hf, _ => by
    cases fuel with
    | zero => simp [jChars, jCharsObj] at hf
    | succ f =>
      have harg : jChars (.obj []) ++ rest = '\x7b' :: '\x7d' :: rest := by
        simp [jChars, jCharsObj]
      rw [harg]
      simp [pVal, dropJws, isJws]
  | .obj (m :: t), fuel, rest, hf, _ => by
    cases fuel with
    | zero => exact absurd hf (Nat.not_lt_zero _)
    | succ f =>
      have hfo : (jCharsObj (m :: t)).length + 1 < f := by
        simp only [jChars, List.length_cons, List.length_append, List.length_singleton] at hf
        omega
      have key := rt_obj m t f rest hfo
      have harg : jChars (.obj (m :: t)) ++ rest
          = '\x7b' :: (jCharsObj (m :: t) ++ '\x7d' :: rest) := by
        simp [jChars]
      rw [harg, pVal_objBranch, key]
      rfl
termination_by v _ _ _ _ => sizeOf v
/-- Parsing a rendered nonempty element list up to the closing bracket
recovers it. -/
theorem rt_arr : ∀ (x : JsVal) (t : List JsVal) (fuel : Nat) (rest : List Char),
    (jCharsArr (x :: t)).length + 1 < fuel →
    pArr fuel (jCharsArr (x :: t) ++ ']' :: rest) = some (x :: t, rest)
  | x, [], fuel, rest, hfa => by
    cases fuel with
    | zero => exact absurd hfa (Nat.not_lt_zero _)
    | succ f =>
      have hfx : (jChars x).length < f := by
        simp only [jCharsArr] at hfa
        omega
      have hv := rt_val x f (']' :: rest) hfx (noDigitAhead_cons (by decide) _)
      have harg : jCharsArr [x] ++ ']' :: rest = jChars x ++ ']' :: rest := by
        simp [jCharsArr]
      rw [harg]
      simp only [pArr]
      rw [hv]
      simp [dropJws_cons (show isJws ']' = false by decide)]
  | x, y :: t2, fuel, rest, hfa => by
    cases fuel with
    | zero => exact absurd hfa (Nat.not_lt_zero _)
    | succ f =>
      have hlen : (jCharsArr (x :: y :: t2)).length
          = (jChars x).length + 1 + (jCharsArr (y :: t2)).length := by
        simp [jCharsArr]
        omega
      have hxpos := jChars_len_pos x
      have hfx : (jChars x).length < f := by omega
      have hfy : (jCharsArr (y :: t2)).length + 1 < f := by omega
      have hv := rt_val x f (',' :: (jCharsArr (y :: t2) ++ ']' :: rest)) hfx
        (noDigitAhead_cons (by decide) _)
      have key := rt_arr y t2 f rest hfy
      have harg : jCharsArr (x :: y :: t2) ++ ']' :: rest
          = jChars x ++ ',' :: (jCharsArr (y :: t2) ++ ']' :: rest) := by
        simp [jCharsArr]
      rw [harg]
      simp only [pArr]
      rw [hv]
      simp [dropJws_cons (show isJws ',' = false by decide), dropJws_jCharsArr, key]
termination_by x t _ _ _ => sizeOf x + sizeOf t
/-- Parsing a rendered nonempty member list up to the closing brace
recovers it. -/
theorem rt_obj : ∀ (m : String × JsVal) (t : List (String × JsVal)) (fuel : Nat)
    (rest : List Char),
    (jCharsObj (m :: t)).length + 1 < fuel →
    pObj fuel (jCharsObj (m :: t) ++ '\x7d' :: rest) = some (m :: t, rest)
  | (k, v), [], fuel, rest, hfo => by
    cases fuel with
    | zero => exact absurd hfo (Nat.not_lt_zero _)
    | succ f =>
      have hfv : (jChars v).length < f := by
        simp only [jCharsObj, List.length_append, List.length_cons] at hfo
        omega
      have hv := rt_val v f ('\x7d' :: rest) hfv (noDigitAhead_cons (by decide) _)
      have harg : jCharsObj [(k, v)] ++ '\x7d' :: rest
          = '"' :: (escAll k.toList ++ '"' :: (':' :: (jChars v ++ '\x7d' :: rest))) := by
        simp [jCharsObj, strJson]
      rw [harg]
      simp only [pObj]
      rw [dropJws_cons (by decide)]
      simp [strTail_escAll, dropJws_cons (show isJws ':' = false by decide),
        dropJws_jChars, hv, dropJws_cons (show isJws '\x7d' = false by decide)]
  | (k, v), m2 :: t2, fuel, rest, hfo => by
    cases fuel with
    | zero => exact absurd hfo (Nat.not_lt_zero _)
    | succ f =>
      have hlen : (jCharsObj ((k, v) :: m2 :: t2)).length
          = (strJson k).length + 1 + (jChars v).length + 1
            + (jCharsObj (m2 :: t2)).length := by
        simp [jCharsObj]
        omega
      have hfv : (jChars v).length < f := by omega
      have hfm : (jCharsObj (m2 :: t2)).length + 1 < f := by omega
      have hv := rt_val v f (',' :: (jCharsObj (m2 :: t2) ++ '\x7d' :: rest)) hfv
        (noDigitAhead_cons (by decide) _)
      have key := rt_obj m2 t2 f rest hfm
      have harg : jCharsObj ((k, v) :: m2 :: t2) ++ '\x7d' :: rest
          = '"' :: (escAll k.toList ++ '"' :: (':' :: (jChars v
              ++ ',' :: (jCharsObj (m2 :: t2) ++ '\x7d' :: rest)))) := by
        simp [jCharsObj, strJson]
      rw [harg]
      simp only [pObj]
      rw [dropJws_cons (by decide)]
      simp [strTail_escAll, dropJws_cons (show isJws ':' = false by decide),
        dropJws_jChars, hv, dropJws_cons (show isJws ',' = false by decide),
        dropJws_jCharsObj, key]
termination_by m t _ _ _ => sizeOf m + sizeOf t
end

/-- The full codec inverse on the model of the JSON builtins. -/
theorem jsonParse_stringify (v : JsVal) : jsonParse (jsonStringify v) = some v := by
  have h := rt_val v ((jChars v).length + 1) [] (Nat.lt_succ_self _) rfl
  rw [List.append_nil] at h
  simp [jsonParse, jsonStringify, String.toList, h, dropJws]

theorem jsonStringify_inj : Function.Injective jsonStringify := by
  intro a b h
  have ha := jsonParse_stringify a
  rw [h, jsonParse_stringify b] at ha
  exact (Option.some.injEq b a).mp ha |>.symm

/-! ### Queue conservation under a down or backpressured socket -/

theorem openNoBacklog_ws {s s' : Mesh} (h : s'.ws = s.ws) :
    openNoBacklog s' = openNoBacklog s := by
  simp [openNoBacklog, h]

theorem saveWithInv (resend : Mesh → Mesh)
    (hres : ∀ s : Mesh, openNoBacklog s = false →
      (resend s).sendQueue = s.sendQueue
      ∧ (resend s).ws = s.ws
      ∧ (resend s).sendQueueLimit = s.sendQueueLimit) :
    ∀ s : Mesh, openNoBacklog s = false →
      (saveWith resend s).sendQueue = s.sendQueue
      ∧ (saveWith resend s).ws = s.ws
      ∧ (saveWith resend s).sendQueueLimit = s.sendQueueLimit := by
  intro s hs
  rw [saveWith, saveSendQueueWith]
  split
  · exact hres s hs
  · split
    · exact ⟨rfl, rfl, rfl⟩
    · split
      · exact ⟨rfl, rfl, rfl⟩
      · obtain ⟨h1, h2, h3⟩ := hres s hs
        exact ⟨h1, h2, h3⟩

theorem sendWithInv (resend : Mesh → Mesh)
    (hres : ∀ s : Mesh, openNoBacklog s = false →
      (resend s).sendQueue = s.sendQueue
      ∧ (resend s).ws = s.ws
      ∧ (resend s).sendQueueLimit = s.sendQueueLimit) :
    ∀ (m : JsVal) (s : Mesh), openNoBacklog s = false →
      (sendWith resend m s).2.sendQueue = s.sendQueue ++ [m]
      ∧ (sendWith resend m s).2.ws = s.ws
      ∧ (sendWith resend m s).2.sendQueueLimit = s.sendQueueLimit
      ∧ (sendWith resend m s).1 = false := by
  intro m s hs
  rw [sendWith, hs]
  simp only [Bool.false_eq_true, if_false]
  split
  · exact ⟨rfl, rfl, rfl, rfl⟩
  · rw [manageWith]
    obtain ⟨h1, h2, h3⟩ :=
      saveWithInv resend hres { s with sendQueue := s.sendQueue ++ [m] } hs
    exact ⟨h1, h2, h3, rfl⟩

/-- With no immediate transmit possible, the resend loop leaves the
queue and the socket fields unchanged at every fuel. -/
theorem drainInv : ∀ fuel : Nat, ∀ s : Mesh, openNoBacklog s = false →
    (sendQueuedMsgs fuel s).sendQueue = s.sendQueue
    ∧ (sendQueuedMsgs fuel s).ws = s.ws
    ∧ (sendQueuedMsgs fuel s).sendQueueLimit = s.sendQueueLimit := by
  intro fuel
  induction fuel with
  | zero => exact fun s _ => ⟨rfl, rfl, rfl⟩
  | succ f ih =>
    intro s hs
    rcases List.eq_nil_or_concat s.sendQueue with hq | ⟨q, m, hq⟩
    · have hnone : s.sendQueue.getLast? = none := by rw [hq]; rfl
      rw [sendQueuedMsgs, hnone]
      exact ⟨rfl, rfl, rfl⟩
    · rw [List.concat_eq_append] at hq
      have hsome : s.sendQueue.getLast? = some m := by
        rw [hq]
        exact List.getLast?_concat _
      have hdl : s.sendQueue.dropLast = q := by
        rw [hq]
        exact List.dropLast_concat ..
      rw [sendQueuedMsgs, hsome]
      obtain ⟨h1, h2, h3, _⟩ :=
        sendWithInv (sendQueuedMsgs f) ih m { s with sendQueue := s.sendQueue.dropLast } hs
      have hqq : (sendWith (sendQueuedMsgs f) m
          { s with sendQueue := s.sendQueue.dropLast }).2.sendQueue = s.sendQueue := by
        rw [h1]
        simp only
        rw [hdl, ← hq]
      have hop : openNoBacklog (sendWith (sendQueuedMsgs f) m
          { s with sendQueue := s.sendQueue.dropLast }).2 = false := by
        rw [openNoBacklog_ws h2]
        exact hs
      obtain ⟨g1, g2, g3⟩ := ih _ hop
      exact ⟨by rw [g1, hqq], by rw [g2, h2], by rw [g3, h3]⟩

/-- With no immediate transmit possible, a send appends exactly its
message to the queue, changes no socket field and returns false. -/
theorem sendInv (fuel : Nat) (m : JsVal) (s : Mesh) (hs : openNoBacklog s = false) :
    (sendF fuel m s).2.sendQueue = s.sendQueue ++ [m]
    ∧ (sendF fuel m s).2.ws = s.ws
    ∧ (sendF fuel m s).2.sendQueueLimit = s.sendQueueLimit
    ∧ (sendF fuel m s).1 = false :=
  sendWithInv (sendQueuedMsgs fuel) (drainInv fuel) m s hs

/-- With no immediate transmit possible and the queue strictly below
the cap, a send is a plain push. -/
theorem sendF_plain (fuel : Nat) (m : JsVal) (s : Mesh)
    (hs : openNoBacklog s = false) (hlen : s.sendQueue.length < s.sendQueueLimit) :
    sendF fuel m s = (false, { s with sendQueue := s.sendQueue ++ [m] }) := by
  rw [sendF, sendWith, hs]
  simp only [Bool.false_eq_true, if_false]
  rw [if_pos hlen]

/-- With no immediate transmit possible and enough head-room in the
queue for all of them, a burst of sends appends exactly its messages in
order, at every recursion budget (the plain branch never consults the
resend loop). -/
theorem runSends_plain (fuel : Nat) :
    ∀ (msgs : List JsVal) (s : Mesh), openNoBacklog s = false →
      s.sendQueue.length + msgs.length ≤ s.sendQueueLimit →
      runSends fuel msgs s = { s with sendQueue := s.sendQueue ++ msgs } := by
  intro msgs
  induction msgs with
  | nil => intro s _ _; simp [runSends]
  | cons m ms ih =>
    intro s hs hlen
    rw [List.length_cons] at hlen
    have hm : s.sendQueue.length < s.sendQueueLimit := by omega
    have hstep : (sendF fuel m s).2 = { s with sendQueue := s.sendQueue ++ [m] } := by
      rw [sendF_plain fuel m s hs hm]
    have hs2 : openNoBacklog { s with sendQueue := s.sendQueue ++ [m] } = false := hs
    have hlen2 : (s.sendQueue ++ [m]).length + ms.length ≤ s.sendQueueLimit := by
      rw [List.length_append]
      simp only [List.length_singleton]
      omega
    calc runSends fuel (m :: ms) s
        = runSends fuel ms (sendF fuel m s).2 := rfl
      _ = runSends fuel ms { s with sendQueue := s.sendQueue ++ [m] } := by rw [hstep]
      _ = { s with sendQueue := (s.sendQueue ++ [m]) ++ ms } := ih _ hs2 hlen2
      _ = { s with sendQueue := s.sendQueue ++ m :: ms } := by
          rw [List.append_assoc, List.singleton_append]

/-- The drain loop never completes when no transmit is possible and the
queue sits at or above the cap but below the disk threshold: the pop is
undone - by a plain push when the popped queue dips below the cap, by
the overflow path otherwise - and the loop recurses on a queue of the
original length, at every recursion budget. -/
theorem drainCompletes_false : ∀ (fuel : Nat) (s : Mesh),
    openNoBacklog s = false →
    s.sendQueueLimit ≤ s.sendQueue.length →
    2 * s.sendQueue.length < 3 * s.sendQueueLimit →
    drainCompletes fuel s = false := by
  intro fuel
  induction fuel with
  | zero =>
    intro s hs hlen hcap
    have hpos : 0 < s.sendQueue.length := by omega
    rw [drainCompletes]
    cases hq : s.sendQueue with
    | nil => rw [hq] at hpos; simp at hpos
    | cons a t => rfl
  | succ f ih =>
    intro s hs hlen hcap
    have hpos : 0 < s.sendQueue.length := by omega
    rcases List.eq_nil_or_concat s.sendQueue with hq | ⟨q, m, hq⟩
    · rw [hq] at hpos; simp at hpos
    · rw [List.concat_eq_append] at hq
      have hsome : s.sendQueue.getLast? = some m := by
        rw [hq]
        exact List.getLast?_concat _
      rw [drainCompletes, hsome]
      show (sendCompletesWith (drainCompletes f) m { s with sendQueue := s.sendQueue.dropLast }
          && drainCompletes f (sendF f m { s with sendQueue := s.sendQueue.dropLast }).2) = false
      by_cases hsmall : s.sendQueue.dropLast.length < s.sendQueueLimit
      · have hstep : (sendF f m { s with sendQueue := s.sendQueue.dropLast }).2
            = { s with sendQueue := s.sendQueue.dropLast ++ [m] } := by
          rw [sendF_plain f m { s with sendQueue := s.sendQueue.dropLast } hs hsmall]
        rw [hstep]
        have hrec : drainCompletes f { s with sendQueue := s.sendQueue.dropLast ++ [m] }
            = false := by
          apply ih
          · exact hs
          · show s.sendQueueLimit ≤ (s.sendQueue.dropLast ++ [m]).length
            rw [List.length_append, List.length_dropLast]
            simp only [List.length_singleton]
            omega
          · show 2 * (s.sendQueue.dropLast ++ [m]).length < 3 * s.sendQueueLimit
            rw [List.length_append, List.length_dropLast]
            simp only [List.length_singleton]
            omega
        rw [hrec, Bool.and_false]
      · have hfirst : sendCompletesWith (drainCompletes f) m
            { s with sendQueue := s.sendQueue.dropLast } = false := by
          rw [sendCompletesWith]
          rw [show openNoBacklog { s with sendQueue := s.sendQueue.dropLast }
              = openNoBacklog s from rfl, hs]
          simp only [Bool.false_eq_true, if_false]
          rw [if_neg hsmall, manageCompletesWith, saveCompletesWith]
          have hcap2 : 2 * (s.sendQueue.dropLast ++ [m]).length < 3 * s.sendQueueLimit := by
            rw [List.length_append, List.length_dropLast]
            simp only [List.length_singleton]
            omega
          rw [if_pos hcap2]
          apply ih
          · exact hs
          · show s.sendQueueLimit ≤ (s.sendQueue.dropLast ++ [m]).length
            rw [List.length_append, List.length_dropLast]
            simp only [List.length_singleton]
            omega
          · exact hcap2
        rw [hfirst, Bool.false_and]

/-- A send from a state with no transmit possible and the queue at or
above the cap, the pushed queue still below the disk threshold, never
completes at any recursion budget: the overflow path runs the drain
synchronously on the re-filled queue. -/
theorem send_never_completes (fuel : Nat) (msg : JsVal) (s : Mesh)
    (hs : openNoBacklog s = false)
    (hlen : s.sendQueueLimit ≤ s.sendQueue.length)
    (hcap : 2 * (s.sendQueue.length + 1) < 3 * s.sendQueueLimit) :
    sendCompletes fuel msg s = false := by
  rw [sendCompletes, sendCompletesWith, hs]
  simp only [Bool.false_eq_true, if_false]
  rw [if_neg (by omega), manageCompletesWith, saveCompletesWith]
  have hcap2 : 2 * (s.sendQueue ++ [msg]).length < 3 * s.sendQueueLimit := by
    rw [List.length_append]
    simp only [List.length_singleton]
    omega
  rw [if_pos hcap2]
  apply drainCompletes_false
  · exact hs
  · show s.sendQueueLimit ≤ (s.sendQueue ++ [msg]).length
    rw [List.length_append]
    simp only [List.length_singleton]
    omega
  · exact hcap2

/-! ### The claims -/

/-- C1: for every JSON-representable envelope v that the encode table
dispatch accepts (typeof object - which includes null and arrays -
string, or number), decode of encode recovers v exactly (deep
equality). -/
theorem C1_codec_roundtrip (v : JsVal)
    (h : jsTypeof v = "object" ∨ jsTypeof v = "string" ∨ jsTypeof v = "number") :
    (encode v).bind decode = .ok v := by
  have henc : encode v = .ok (.buf (jsonStringify v)) := by
    simp only [encode, if_pos h]
  rw [henc]
  simp [Except.bind, decode, jsonParse_stringify]

theorem C1_codec_roundtrip_witness :
    (jsTypeof (JsVal.obj [("eventName", JsVal.str "x"), ("a", JsVal.num 1)]) = "object"
      ∨ jsTypeof (JsVal.obj [("eventName", JsVal.str "x"), ("a", JsVal.num 1)]) = "string"
      ∨ jsTypeof (JsVal.obj [("eventName", JsVal.str "x"), ("a", JsVal.num 1)]) = "number")
    ∧ (encode (JsVal.obj [("eventName", JsVal.str "x"), ("a", JsVal.num 1)])).bind decode
        = .ok (JsVal.obj [("eventName", JsVal.str "x"), ("a", JsVal.num 1)]) :=
  ⟨Or.inl rfl, C1_codec_roundtrip _ (Or.inl rfl)⟩

/-- C2, the code at the failing input: with the socket unable to
transmit (closed, absent, or backpressured) and the queue at or above
the cap - the pushed queue still below one-and-a-half times the cap, so
the disk branch is not reached - send(msg) never returns any boolean:
manageSendQueue runs the drain synchronously (the Promise executor
calls sendQueuedMsgs during argument evaluation, before any await), the
drain pops an entry and send re-pushes it, and this recursion completes
at no recursion budget whatsoever - against the claim that send always
returns a boolean at every queue length. -/
theorem C2_send_diverges_at_cap (msg : JsVal) (s : Mesh)
    (hs : openNoBacklog s = false)
    (hlen : s.sendQueueLimit ≤ s.sendQueue.length)
    (hcap : 2 * (s.sendQueue.length + 1) < 3 * s.sendQueueLimit) :
    ∀ fuel : Nat, sendCompletes fuel msg s = false :=
  fun fuel => send_never_completes fuel msg s hs hlen hcap

theorem C2_send_diverges_at_cap_witness :
    openNoBacklog { initialMesh with sendQueue := List.replicate 20 (JsVal.num 0) } = false
    ∧ ({ initialMesh with sendQueue := List.replicate 20 (JsVal.num 0) } : Mesh).sendQueueLimit
        ≤ ({ initialMesh with
              sendQueue := List.replicate 20 (JsVal.num 0) } : Mesh).sendQueue.length
    ∧ 2 * (({ initialMesh with
              sendQueue := List.replicate 20 (JsVal.num 0) } : Mesh).sendQueue.length + 1)
        < 3 * ({ initialMesh with
              sendQueue := List.replicate 20 (JsVal.num 0) } : Mesh).sendQueueLimit
    ∧ sendCompletes 5 (JsVal.num 7)
        { initialMesh with sendQueue := List.replicate 20 (JsVal.num 0) } = false :=
  ⟨rfl, by decide, by decide,
    C2_send_diverges_at_cap (JsVal.num 7)
      { initialMesh with sendQueue := List.replicate 20 (JsVal.num 0) }
      rfl (by decide) (by decide) 5⟩

/-- C3, counterexample to the claim as stated: in the 25-send
disconnected scenario with the default limit of 20, the sixth send does
not take the overflow path (the queue holds five entries, far below the
cap); the flags list records, per send, whether the overflow path was
entered. -/
theorem C3_sixth_send_not_overflow :
    (sendsOverflowFlags 3 ((List.range 25).map (fun i => JsVal.num (Int.ofNat i)))
      { initialMesh with fileContent := some [] })[5]? = some false := by rfl

/-- C3 as amended: publishing while disconnected with the default limit
of 20, the first twenty envelopes are queued without entering the
overflow path - the run being the same at every recursion budget - and
the queue then holds exactly those twenty in order; the twenty-first
send takes the overflow path (not the sixth) and never completes at any
budget, so the original 25-envelope scenario never gets past envelope
21 and the claimed memory-plus-disk accounting of all 25 is never
reached. -/
theorem C3_first_twenty_kept_then_divergence :
    (∀ fuel : Nat, runSends fuel
        ((List.range 20).map (fun i => JsVal.num (Int.ofNat i)))
        { initialMesh with fileContent := some [] }
      = { initialMesh with
            fileContent := some [],
            sendQueue := (List.range 20).map (fun i => JsVal.num (Int.ofNat i)) })
    ∧ overflowEntry { initialMesh with
          fileContent := some [],
          sendQueue := (List.range 20).map (fun i => JsVal.num (Int.ofNat i)) } = true
    ∧ ∀ (fuel : Nat) (msg : JsVal), sendCompletes fuel msg
        { initialMesh with
            fileContent := some [],
            sendQueue := (List.range 20).map (fun i => JsVal.num (Int.ofNat i)) } = false := by
  refine ⟨?_, by rfl, ?_⟩
  · intro fuel
    have h := runSends_plain fuel
      ((List.range 20).map (fun i => JsVal.num (Int.ofNat i)))
      { initialMesh with fileContent := some [] } rfl (by decide)
    rw [h]
    rfl
  · intro fuel msg
    exact send_never_completes fuel msg _ rfl (by decide) (by decide)

/-! ### Trace bookkeeping helpers -/

theorem schedules_append (a b : List Effect) :
    schedules (a ++ b) = schedules a ++ schedules b := by
  simp [schedules]

theorem schedules_emitEffects (tbl : List (String × Listener)) (n p : JsVal) :
    schedules (emitEffects tbl n p) = [] := by
  simp [schedules, emitEffects, List.filterMap_map]

theorem invokesOf_append (a b : List Effect) :
    invokesOf (a ++ b) = invokesOf a ++ invokesOf b := by
  simp [invokesOf]

theorem invokesOf_emitEffects (tbl : List (String × Listener)) (n p : JsVal) :
    invokesOf (emitEffects tbl n p) = listenersFor tbl n := by
  simp [invokesOf, emitEffects, List.filterMap_map]
  induction listenersFor tbl n with
  | nil => rfl
  | cons x t ih => simp [List.filterMap_cons, ih]

theorem invokesOf_map_invokeL (l : List Listener) :
    invokesOf (l.map .invokeL) = l := by
  simp [invokesOf, List.filterMap_map]
  induction l with
  | nil => rfl
  | cons x t ih => simp [List.filterMap_cons, ih]

/-- C4: the overflow spill of saveSendQueue with an arbitrary resend
callback: over the byte cap it aborts with a log line, changing nothing
else (file preserved); under it, it reads the persisted entries,
invokes the callback with persisted-then-in-memory concatenation, and
writes back exactly what the callback resolved as unsent. -/
theorem C4_overflow_spill (sender : List JsVal → Mesh → List JsVal × Mesh) (s : Mesh)
    (hspill : ¬ 2 * s.sendQueue.length < 3 * s.sendQueueLimit) :
    (s.fileSize > 99999999 →
      saveSendQueueWith sender s
        = { s with trace := s.trace ++ [.logLine "queue backing store too large"] })
    ∧ (∀ stored : List JsVal, s.fileSize ≤ 99999999 → s.fileContent = some stored →
      saveSendQueueWith sender s
        = { (sender (stored ++ s.sendQueue) s).2 with
              fileContent := some (sender (stored ++ s.sendQueue) s).1,
              fileSize := (jChars (.arr (sender (stored ++ s.sendQueue) s).1)).length }) := by
  constructor
  · intro hbig
    rw [saveSendQueueWith, if_neg hspill, if_pos hbig]
  · intro stored hsize hfile
    rw [saveSendQueueWith, if_neg hspill, if_neg (by omega), hfile]

theorem C4_overflow_spill_witness :
    (¬ 2 * ({ initialMesh with
        sendQueue := List.replicate 30 (JsVal.num 1),
        fileContent := some [JsVal.num 2], fileSize := 10 } : Mesh).sendQueue.length
      < 3 * ({ initialMesh with
        sendQueue := List.replicate 30 (JsVal.num 1),
        fileContent := some [JsVal.num 2], fileSize := 10 } : Mesh).sendQueueLimit)
    ∧ saveSendQueueWith (fun _ s2 => ([], s2))
        { initialMesh with
          sendQueue := List.replicate 30 (JsVal.num 1),
          fileContent := some [JsVal.num 2], fileSize := 10 }
      = { ({ initialMesh with
          sendQueue := List.replicate 30 (JsVal.num 1),
          fileContent := some [JsVal.num 2], fileSize := 10 } : Mesh) with
            fileContent := some [], fileSize := 2 } := by
  refine ⟨by decide, ?_⟩
  have h := (C4_overflow_spill (fun _ s2 => ([], s2))
    { initialMesh with
      sendQueue := List.replicate 30 (JsVal.num 1),
      fileContent := some [JsVal.num 2], fileSize := 10 } (by decide)).2
    [JsVal.num 2] (by decide) rfl
  exact h

theorem filterMap_sched_invokes (l : List Listener) :
    List.filterMap (fun e => match e with | Effect.schedule a d => some (a, d) | _ => none)
      (l.map .invokeL) = [] := by
  induction l with
  | nil => rfl
  | cons x t ih => simp [ih]

/-- C5: a close event carrying code 1006 or 4040 while the reconnecting
flag is clear yields exactly one scheduled reconnect, with the 8000 ms
delay, and sets the flag; any close event arriving while the flag is set
schedules nothing. -/
theorem C5_reconnect_dedup (code : Nat) (reason : String) (s : Mesh) (w : Ws)
    (hws : s.ws = some w) (hrec : s.reconnecting = false)
    (hcode : code = 1006 ∨ code = 4040) :
    (handleClose code reason s).map
        (fun s2 => (s2.reconnecting, schedules (s2.trace.drop s.trace.length)))
      = .ok (true, [(.connectT, 8000)])
    ∧ ∀ (code2 : Nat) (reason2 : String) (s3 : Mesh), s3.reconnecting = true →
        (handleClose code2 reason2 s3).map
            (fun s4 => schedules (s4.trace.drop s3.trace.length))
          = .ok [] := by
  constructor
  · simp only [handleClose, emitF, closeF, if_pos hcode]
    simp [hws, hrec, Except.map, schedules, emitEffects, List.filterMap_append,
      List.filterMap_cons, filterMap_sched_invokes, List.drop_left, List.append_assoc]
  · intro code2 reason2 s3 h3
    simp only [handleClose, emitF]
    split
    · simp [h3, Except.map, schedules, emitEffects, List.filterMap_append,
        List.filterMap_cons, filterMap_sched_invokes, List.drop_left, List.append_assoc]
    · simp [Except.map, schedules, emitEffects, List.filterMap_append,
        List.filterMap_cons, filterMap_sched_invokes, List.drop_left, List.append_assoc]

theorem C5_reconnect_dedup_witness :
    ({ initialMesh with ws := some ⟨1, 0⟩ } : Mesh).ws = some ⟨1, 0⟩
    ∧ ({ initialMesh with ws := some ⟨1, 0⟩ } : Mesh).reconnecting = false
    ∧ (1006 = 1006 ∨ 1006 = 4040)
    ∧ (handleClose 1006 "net-drop" { initialMesh with ws := some ⟨1, 0⟩ }).map
        (fun s2 => (s2.reconnecting, schedules (s2.trace.drop
          ({ initialMesh with ws := some ⟨1, 0⟩ } : Mesh).trace.length)))
      = .ok (true, [(.connectT, 8000)]) :=
  ⟨rfl, rfl, Or.inl rfl,
    (C5_reconnect_dedup 1006 "net-drop" { initialMesh with ws := some ⟨1, 0⟩ } ⟨1, 0⟩
      rfl rfl (Or.inl rfl)).1⟩

/-- C6, the code at the failing input: a client whose previous session
ended in a heartbeat timeout reaches open with the pong flag still
clear (nothing ever resets it), so on that open the monitor sends no
ping at all: heartbeat takes the timeout branch at once, closes the
fresh socket with 4877 and schedules yet another reconnect (5000 ms) -
against both the claim and the specified liveness loop. -/
theorem C6_open_after_timeout_no_ping :
    (handleOpen 1 { initialMesh with ws := some ⟨1, 0⟩, pong := false }).map
        (fun s2 => (pingsOf s2.trace,
          s2.trace.filterMap (fun e => match e with | .wsClose c _ => some c | _ => none),
          schedules s2.trace))
      = .ok ([], [4877], [(.connectT, 5000), (.flushT, 1000)]) := by rfl

/-- C7, counterexample to the claim as stated: an open event in the
reachable state a heartbeat timeout leaves behind (pong still clear -
the C6 slip) does not start the heartbeat monitor: the handler sends no
ping and schedules no heartbeat wait - only the instant-timeout
reconnect (5000 ms) and the queue flush (1000 ms) are scheduled - and
the reconnecting flag the handler had just cleared ends up set again,
so the side-effect order the claim asserts of every open fails
there. -/
theorem C7_post_timeout_open_skips_heartbeat :
    (handleOpen 1 { initialMesh with ws := some ⟨1, 0⟩, pong := false }).map
        (fun s2 => (pingsOf s2.trace, schedules s2.trace, s2.reconnecting))
      = .ok ([], [(.connectT, 5000), (.flushT, 1000)], true) := by rfl

/-- C7 as amended: on a socket open event (fresh socket: OPEN, empty backlog) with
the liveness flag in its normal set state, the handler clears the
reconnecting flag and then, in order: transmits the telemetry record
(the first and only frame the handler sends), starts the heartbeat
(ping plus its rescheduling), and schedules the queue flush after
1000 ms. -/
theorem C7_open_side_effects (fuel : Nat) (s : Mesh)
    (hws : s.ws = some ⟨1, 0⟩) (hpong : s.pong = true) :
    (handleOpen fuel s).map
        (fun s2 => (s2.reconnecting, s2.trace.drop s.trace.length))
      = .ok (false,
          [.logLine "connection open",
           .transmit (jsonStringify (telemetry s)),
           .ping, .schedule .heartbeatT heartbeatms, .schedule .flushT 1000])
    ∧ (handleOpen fuel s).map (fun s2 => transmitsOf (s2.trace.drop s.trace.length))
      = .ok [jsonStringify (telemetry s)] := by
  have hopen : openNoBacklog
      { s with reconnecting := false,
               trace := s.trace ++ [Effect.logLine "connection open"] } = true := by
    simp [openNoBacklog, hws]
  have henc : encode (telemetry
      { s with reconnecting := false,
               trace := s.trace ++ [Effect.logLine "connection open"] })
      = .ok (.buf (jsonStringify (telemetry s))) := rfl
  constructor
  · simp only [handleOpen, sendF, sendWith, if_pos hopen, breakerInvoke, henc, heartbeatF]
    simp [hpong, hws, Except.map, List.drop_left, List.append_assoc]
  · simp only [handleOpen, sendF, sendWith, if_pos hopen, breakerInvoke, henc, heartbeatF]
    simp [hpong, hws, Except.map, List.drop_left, List.append_assoc, transmitsOf,
      List.filterMap_cons, List.filterMap_append]

theorem C7_open_side_effects_witness :
    ({ initialMesh with ws := some ⟨1, 0⟩ } : Mesh).ws = some ⟨1, 0⟩
    ∧ ({ initialMesh with ws := some ⟨1, 0⟩ } : Mesh).pong = true
    ∧ (handleOpen 1 { initialMesh with ws := some ⟨1, 0⟩ }).map
        (fun s2 => (s2.reconnecting,
          s2.trace.drop ({ initialMesh with ws := some ⟨1, 0⟩ } : Mesh).trace.length))
      = .ok (false,
          [.logLine "connection open",
           .transmit (jsonStringify (telemetry { initialMesh with ws := some ⟨1, 0⟩ })),
           .ping, .schedule .heartbeatT heartbeatms, .schedule .flushT 1000]) :=
  ⟨rfl, rfl, (C7_open_side_effects 1 { initialMesh with ws := some ⟨1, 0⟩ } rfl rfl).1⟩

/-- C8, counterexample to the claim as stated: the inbound frame whose
JSON text is the null literal decodes successfully to a value without
an eventName field, but the handler then reads eventName off null,
which throws, so the catch only logs: no missing-event-name diagnostic
is emitted and no listener of any kind runs - the universal claim fails
at this frame. -/
theorem C8_null_frame_only_logs :
    handleMessage (.buf "null") initialMesh
      = { initialMesh with trace := [.logLine "message handler error"] } := by rfl

/-- C8 as amended: every inbound frame whose decoded value has no
eventName property to read (the read yields undefined rather than
throwing, which excludes the null frame) makes the handler emit the
missing-event-name diagnostic with the decoded event and stop: the
trace grows by exactly that emit, and the listeners invoked are exactly
the diagnostic subscribers - no other exact-name subscriber and no
wildcard subscriber runs. -/
theorem C8_missing_event_name_universal (s : Mesh) (v : JsVal)
    (hv : getProp v "eventName" = .ok none) :
    handleMessage (.buf (jsonStringify v)) s
      = { s with trace := s.trace ++ emitEffects s.tbl (.str "missingEventName") v }
    ∧ invokesOf ((handleMessage (.buf (jsonStringify v)) s).trace.drop s.trace.length)
      = listenersFor s.tbl (.str "missingEventName") := by
  have hdec : decode (.buf (jsonStringify v)) = .ok v := by
    simp [decode, jsonParse_stringify]
  have h1 : handleMessage (.buf (jsonStringify v)) s
      = { s with trace := s.trace ++ emitEffects s.tbl (.str "missingEventName") v } := by
    simp only [handleMessage, hdec, hv]
    rfl
  refine ⟨h1, ?_⟩
  rw [h1]
  simp [List.drop_left, invokesOf_emitEffects]

theorem C8_missing_event_name_universal_witness :
    getProp (JsVal.obj [("a", JsVal.num 1)]) "eventName" = .ok none
    ∧ handleMessage (.buf (jsonStringify (JsVal.obj [("a", JsVal.num 1)]))) initialMesh
      = { initialMesh with
            trace := initialMesh.trace
              ++ emitEffects initialMesh.tbl (.str "missingEventName")
                  (JsVal.obj [("a", JsVal.num 1)]) } :=
  ⟨rfl, (C8_missing_event_name_universal initialMesh (JsVal.obj [("a", JsVal.num 1)]) rfl).1⟩

/-- C9: with no socket (before the first connect, or after close already
ran), the public close dereferences the null socket at
removeAllListeners: a TypeError, not a no-op. -/
theorem C9_close_null_socket (code : Nat) (reason : String) (s : Mesh)
    (h : s.ws = none) :
    closeF code reason s = .error .typeErr := by
  rw [closeF, h]

theorem C9_close_null_socket_witness :
    initialMesh.ws = none
    ∧ closeF 1000 "bye" initialMesh = .error .typeErr :=
  ⟨rfl, C9_close_null_socket 1000 "bye" initialMesh rfl⟩

/-- C10, counterexample to the claim as stated: with one wildcard
subscriber registered, a peer frame whose eventName is the internal
timeout event name invokes that wildcard subscriber as well, so the set
of listeners the frame dispatch invokes is not exactly the set an
internal emit of the same event invokes (which never includes
wildcards). -/
theorem C10_frame_not_exactly_internal :
    invokesOf ((handleMessage (.buf "\x7b\"eventName\":\"webswitchTimeout\"\x7d")
        { initialMesh with tbl := [("*", .user 7)] }).trace)
      ≠ invokesOf ((emitF { initialMesh with tbl := [("*", .user 7)] }
          (.str TIMEOUTEVENT)
          (.obj [("eventName", .str "webswitchTimeout")])).trace) := by
  decide

theorem detectErrors_mono (names : List String) :
    ∀ (tbl : List (String × Listener)) (x : String × Listener),
      x ∈ tbl → x ∈ detectErrors names tbl := by
  induction names with
  | nil => exact fun tbl x hx => hx
  | cons n ns ih =>
    intro tbl x hx
    have hstep : x ∈ (if (n, Listener.breakerDetect) ∈ tbl then tbl
        else tbl ++ [(n, .breakerDetect)]) := by
      split
      · exact hx
      · exact List.mem_append_left _ hx
    exact ih _ x hstep

theorem detectErrors_mem (names : List String) :
    ∀ (tbl : List (String × Listener)) (n : String), n ∈ names →
      (n, Listener.breakerDetect) ∈ detectErrors names tbl := by
  induction names with
  | nil => intro tbl n hn; cases hn
  | cons m ns ih =>
    intro tbl n hn
    rcases List.mem_cons.mp hn with h | h
    · subst h
      apply detectErrors_mono ns
      show (n, Listener.breakerDetect) ∈
        if (n, Listener.breakerDetect) ∈ tbl then tbl else tbl ++ [(n, Listener.breakerDetect)]
      split
      · assumption
      · exact List.mem_append_right _ (List.mem_singleton.mpr rfl)
    · exact ih _ n h

/-- C10 as amended: inbound frames and internal diagnostics share one
emitter namespace.  A peer frame whose eventName equals an internal
failure event name invokes all the listeners of the internally-raised
event, in the same order, followed by any wildcard subscribers; the
breaker error detection that send registers under those names is among
them, so such a frame is indistinguishable from a local failure to
those listeners and counts toward the circuit breaker. -/
theorem C10_shared_namespace (s : Mesh) (name : String)
    (hname : name = TIMEOUTEVENT ∨ name = CONNECTERROR ∨ name = WSOCKETERROR) :
    invokesOf ((handleMessage (.buf (jsonStringify (.obj [("eventName", .str name)]))) s).trace.drop
        s.trace.length)
      = listenersFor s.tbl (.str name) ++ listenersFor s.tbl (.str "*")
    ∧ invokesOf ((emitF s (.str name) (.obj [("eventName", .str name)])).trace.drop
        s.trace.length)
      = listenersFor s.tbl (.str name)
    ∧ ((name, Listener.breakerDetect) ∈ s.tbl →
        Listener.breakerDetect ∈ invokesOf
          ((handleMessage (.buf (jsonStringify (.obj [("eventName", .str name)]))) s).trace.drop
            s.trace.length))
    ∧ (∀ (fuel : Nat) (msg : JsVal), openNoBacklog s = true →
        (name, Listener.breakerDetect) ∈ (sendF fuel msg s).2.tbl) := by
  have hdec : decode (.buf (jsonStringify (.obj [("eventName", .str name)])))
      = .ok (.obj [("eventName", .str name)]) := by
    simp [decode, jsonParse_stringify]
  have htr : jsTruthy (.str name) = true := by
    rcases hname with h | h | h <;> subst h <;> rfl
  have hmain : invokesOf ((handleMessage (.buf (jsonStringify
      (.obj [("eventName", .str name)]))) s).trace.drop s.trace.length)
      = listenersFor s.tbl (.str name) ++ listenersFor s.tbl (.str "*") := by
    rw [handleMessage, hdec]
    simp only [getProp, objGet, if_pos rfl, Option.getD, htr, if_true, emitF]
    simp [htr, List.drop_left, List.append_assoc, invokesOf_append,
      invokesOf_emitEffects, invokesOf_map_invokeL]
  refine ⟨hmain, ?_, ?_, ?_⟩
  · simp [emitF, List.drop_left, invokesOf_emitEffects]
  · intro hmem
    rw [hmain]
    apply List.mem_append_left
    exact List.mem_map.mpr ⟨(name, .breakerDetect),
      List.mem_filter.mpr ⟨hmem, by simp⟩, rfl⟩
  · intro fuel msg hop
    rw [sendF, sendWith, if_pos hop]
    have hm : name ∈ [TIMEOUTEVENT, CONNECTERROR, WSOCKETERROR] := by
      rcases hname with h | h | h <;> simp [h]
    cases henc : encode msg with
    | ok w =>
      cases w <;> simp [breakerInvoke, henc] <;>
        exact detectErrors_mem _ _ _ hm
    | error e =>
      simp [breakerInvoke, henc]
      exact detectErrors_mem _ _ _ hm

theorem C10_shared_namespace_witness :
    ("webswitchTimeout" = TIMEOUTEVENT ∨ "webswitchTimeout" = CONNECTERROR
      ∨ "webswitchTimeout" = WSOCKETERROR)
    ∧ invokesOf ((handleMessage
        (.buf (jsonStringify (.obj [("eventName", .str "webswitchTimeout")])))
        { initialMesh with tbl := [("webswitchTimeout", .breakerDetect), ("*", .user 7)] }).trace.drop
          ({ initialMesh with
              tbl := [("webswitchTimeout", .breakerDetect), ("*", .user 7)] } : Mesh).trace.length)
      = listenersFor [("webswitchTimeout", .breakerDetect), ("*", .user 7)] (.str "webswitchTimeout")
        ++ listenersFor [("webswitchTimeout", .breakerDetect), ("*", .user 7)] (.str "*") :=
  ⟨Or.inl rfl,
    (C10_shared_namespace
      { initialMesh with tbl := [("webswitchTimeout", .breakerDetect), ("*", .user 7)] }
      "webswitchTimeout" (Or.inl rfl)).1⟩
